import Mathlib

/-!
Verification of the static metadata extractor of `dephell_setuptools`
(`dephell_setuptools/_static.py`) and of the failure surface of the
subprocess fallback (`dephell_setuptools/_cmd.py`).

The Python AST nodes that the code distinguishes are modelled by the
inductive types `Expr` and `Stmt` below; every function of
`StaticReader` is translated one-to-one.  Attribute access `node.s`
(defined only on string-literal nodes) is the single partial operation
of the source; it is modelled in the `Except String` monad, so a raised
`AttributeError` becomes an `Except.error`.
-/

namespace Setuptools

/-- Python expression nodes, restricted to the node kinds that
`dephell_setuptools._static` distinguishes.

* `Str s`   — `ast.Str`, with attribute `.s = s`;
* `Name id` — `ast.Name`, with attribute `.id = id`;
* `ListE`   — `ast.List`, with `.elts`;
* `DictE`   — `ast.Dict`; the source always walks `zip(d.keys, d.values)`,
  so the two parallel lists are modelled as one list of pairs.  A key may
  be `None` in the Python AST (a `**` entry inside a dict literal), hence
  `Option Expr`;
* `Call f kws` — `ast.Call`, with `.func = f` and `.keywords = kws`; a
  keyword whose `arg` is `none` is a `**` (double-star) argument;
* `OtherE`  — any other expression node kind (number, attribute access,
  binary operation, ...): the source never inspects their structure. -/
inductive Expr where
  | Str : String → Expr
  | Name : String → Expr
  | ListE : List Expr → Expr
  | DictE : List (Option Expr × Expr) → Expr
  | Call : Expr → List (Option String × Expr) → Expr
  | OtherE : Expr

/-- Python statement nodes, restricted to the kinds that
`StaticReader._get_body` / `_find_variable_in_body` distinguish.

* `FunctionDef body` — `ast.FunctionDef` (only its `.body` is read);
* `If body` — `ast.If` (only its `.body` is read; `orelse` is ignored
  by the source);
* `ExprStmt e` — `ast.Expr`, the bare-expression statement, `.value = e`;
* `Assign targets value` — `ast.Assign`;
* `OtherS` — any other statement (import, loop, ...). -/
inductive Stmt where
  | FunctionDef : List Stmt → Stmt
  | If : List Stmt → Stmt
  | ExprStmt : Expr → Stmt
  | Assign : List Expr → Expr → Stmt
  | OtherS : Stmt

/-- An element of the flattened body: `StaticReader._get_body` yields a
mix of expression nodes (unwrapped from `ast.Expr` statements) and raw
statement nodes. -/
inductive Node where
  | expr : Expr → Node
  | stmt : Stmt → Node

/-- `StaticReader._get_body` (`_static.py` lines 35-46): flatten a
statement list.  The generator yields, per element: for a
`FunctionDef`, the recursively flattened body (then `continue`); for an
`If`, the recursively flattened body and then — because the source has
no `continue` in this branch and an `ast.If` is not an `ast.Expr` — the
`If` statement itself; for an expression statement, its inner
expression (then `continue`); any other statement is yielded
unchanged. -/
def _get_body : List Stmt → List Node
  | [] => []
  | element :: rest =>
    (match element with
     | Stmt.FunctionDef body => _get_body body
     | Stmt.If body => _get_body body ++ [Node.stmt (Stmt.If body)]
     | Stmt.ExprStmt e => [Node.expr e]
     | element => [Node.stmt element])
    ++ _get_body rest

/-- The scan inside `StaticReader._get_call` (`_static.py` lines 49-57):
skip elements that are not `ast.Call`, whose `func` is not an
`ast.Name`, or whose callee name is not `setup`; return the first
remaining element. -/
def _get_call_scan : List Node → Option Expr
  | [] => none
  | element :: rest =>
    match element with
    | Node.expr (Expr.Call f kws) =>
      match f with
      | Expr.Name id => if id = "setup" then some (Expr.Call f kws) else _get_call_scan rest
      | _ => _get_call_scan rest
    | _ => _get_call_scan rest

/-- `StaticReader._get_call` (`_static.py` lines 48-57): scan
`_get_body elements` for the first bare call to `setup`. -/
def _get_call (elements : List Stmt) : Option Expr :=
  _get_call_scan (_get_body elements)

/-- `StaticReader._find_in_call` (`_static.py` lines 182-186): first
keyword of the call whose `arg` equals `name`. -/
def _find_in_call (kws : List (Option String × Expr)) (name : String) : Option Expr :=
  match kws with
  | [] => none
  | (arg, value) :: rest => if arg = some name then some value else _find_in_call rest name

/-- The scan inside `StaticReader._find_call_kwargs`: first keyword with
`arg is None` of an already-reversed keyword list. -/
def _find_kwargs_scan : List (Option String × Expr) → Option Expr
  | [] => none
  | (none, value) :: _ => some value
  | (some _, _) :: rest => _find_kwargs_scan rest

/-- `StaticReader._find_call_kwargs` (`_static.py` lines 188-192): the
value of the first double-star keyword in `reversed(call.keywords)`,
i.e. the last one in source order. -/
def _find_call_kwargs (kws : List (Option String × Expr)) : Option Expr :=
  _find_kwargs_scan kws.reverse

/-- The per-target test of `StaticReader._find_variable_in_body`
(lines 198-201): the target is an `ast.Name` whose `id` equals the
searched name. -/
def _is_name_target (name : String) : Expr → Bool
  | Expr.Name id => id = name
  | _ => false

/-- `StaticReader._find_variable_in_body` (`_static.py` lines 194-203):
linear scan of the flattened body for the first `ast.Assign` one of
whose targets is an `ast.Name` equal to `name`; returns its value. -/
def _find_variable_in_body : List Node → String → Option Expr
  | [], _ => none
  | Node.stmt (Stmt.Assign targets value) :: rest, name =>
    if targets.any (_is_name_target name) then some value
    else _find_variable_in_body rest name
  | _ :: rest, name => _find_variable_in_body rest name

/-- The key test of `StaticReader._find_in_dict` (line 207):
`isinstance(key, ast.Str) and key.s == name`. -/
def _key_matches (name : String) : Option Expr → Bool
  | some (Expr.Str s) => s = name
  | _ => false

/-- `StaticReader._find_in_dict` (`_static.py` lines 205-208): value of
the first dict-literal entry whose key is a string literal equal to
`name`. -/
def _find_in_dict : List (Option Expr × Expr) → String → Option Expr
  | [], _ => none
  | (key, val) :: rest, name =>
    if _key_matches name key then some val else _find_in_dict rest name

/-- The value-location block shared verbatim by
`_find_single_string` (lines 148-169), `_find_install_requires`
(lines 61-81) and `_find_extras_require` (lines 100-120): look the field
up directly among the call's keywords; failing that, take the last
double-star keyword, require it to be a bare name, resolve that name in
the body, require the binding to be a dict literal (looked up with
`_find_in_dict`) or a call to a function named `dict` (looked up with
`_find_in_call`); every other shape gives `none` (the source's early
`return` of the empty/absent result). -/
def _find_value (body : List Node) (kws : List (Option String × Expr))
    (name : String) : Option Expr :=
  match _find_in_call kws name with
  | some value => some value
  | none =>
    match _find_call_kwargs kws with
    | some (Expr.Name id) =>
      match _find_variable_in_body body id with
      | some (Expr.DictE pairs) => _find_in_dict pairs name
      | some (Expr.Call (Expr.Name fid) kws2) =>
        if fid = "dict" then _find_in_call kws2 name else none
      | _ => none
    | _ => none

/-- Attribute access `node.s`: defined on `ast.Str` only; on any other
node kind it raises `AttributeError`. -/
def attr_s : Expr → Except String String
  | Expr.Str s => Except.ok s
  | _ => Except.error "AttributeError"

/-- Attribute access `key.s` for a dict key, which may be `None` in the
AST (also an `AttributeError` then). -/
def key_s : Option Expr → Except String String
  | some e => attr_s e
  | none => Except.error "AttributeError"

/-- `StaticReader._find_single_string` (`_static.py` lines 147-180):
locate the field's value, then accept a string literal directly or a
bare name bound (first assignment) to a string literal; anything else
is absent.  Every `.s` access here is guarded by an `isinstance`
check, so this function cannot raise. -/
def _find_single_string (body : List Node) (kws : List (Option String × Expr))
    (name : String) : Option String :=
  match _find_value body kws name with
  | some (Expr.Str s) => some s
  | some (Expr.Name id) =>
    match _find_variable_in_body body id with
    | some (Expr.Str s) => some s
    | _ => none
  | _ => none

/-- The tail of `StaticReader._find_install_requires` (lines 83-96):
unwrap a located value into a string list.  A list literal is unwrapped
element-wise through the unguarded attribute access `el.s` (which
raises on a non-string element); a bare name gets one variable hop and
the bound value is unwrapped the same way if it is a list literal;
every other shape yields the empty list. -/
def extract_string_list (body : List Node) (value : Option Expr) :
    Except String (List String) :=
  match value with
  | some (Expr.ListE elts) => elts.mapM attr_s
  | some (Expr.Name id) =>
    match _find_variable_in_body body id with
    | some (Expr.ListE elts) => elts.mapM attr_s
    | _ => Except.ok []
  | _ => Except.ok []

/-- `StaticReader._find_install_requires` (`_static.py` lines 59-96). -/
def _find_install_requires (body : List Node) (kws : List (Option String × Expr)) :
    Except String (List String) :=
  extract_string_list body (_find_value body kws "install_requires")

/-- Python dict assignment `d[k] = v` on a string-keyed dict modelled as
an association list: overwrite in place if the key is present,
otherwise append. -/
def dict_insert (acc : List (String × List String)) (k : String) (v : List String) :
    List (String × List String) :=
  if acc.any (fun p => p.1 = k) then
    acc.map (fun p => if p.1 = k then (k, v) else p)
  else acc ++ [(k, v)]

/-- The per-entry variable hop of `_find_extras_require` (lines 127-128
and 139-140): a bare-name value is replaced by its first-assignment
binding (which may not exist); any other value stands for itself. -/
def extras_hop (body : List Node) : Expr → Option Expr
  | Expr.Name id => _find_variable_in_body body id
  | v => some v

/-- The entry loop of `StaticReader._find_extras_require` (lines 126-131
and 138-143): for each `(key, val)` pair of a dict literal, a bare-name
`val` gets one variable hop; if the (hopped) value is a list literal,
the entry `key.s ↦ [e.s for e in val.elts]` is stored (the right-hand
side is evaluated before `key.s`, as in CPython's `STORE_SUBSCR`);
otherwise the entry is skipped.  `key.s` and `e.s` are unguarded and
raise on non-string nodes. -/
def extras_entries (body : List Node) :
    List (Option Expr × Expr) → List (String × List String) →
    Except String (List (String × List String))
  | [], acc => Except.ok acc
  | (key, val) :: rest, acc =>
    match extras_hop body val with
    | some (Expr.ListE elts) => do
      let strs ← elts.mapM attr_s
      let k ← key_s key
      extras_entries body rest (dict_insert acc k strs)
    | _ => extras_entries body rest acc

/-- `StaticReader._find_extras_require` (`_static.py` lines 98-145):
locate the field's value; a dict literal is unwrapped entry-wise, a
bare name bound to a dict literal likewise after one variable hop, and
every other shape yields the empty mapping. -/
def _find_extras_require (body : List Node) (kws : List (Option String × Expr)) :
    Except String (List (String × List String)) :=
  match _find_value body kws "extras_require" with
  | some (Expr.DictE pairs) => extras_entries body pairs []
  | some (Expr.Name id) =>
    match _find_variable_in_body body id with
    | some (Expr.DictE pairs) => extras_entries body pairs []
    | _ => Except.ok []
  | _ => Except.ok []

/-- The static extraction result shape: the five fields of
`StaticReader.content` (`_static.py` lines 14-21). -/
structure Metadata where
  mk ::
  name : Option String
  version : Option String
  python_requires : Option String
  install_requires : List String
  extras_require : List (String × List String)
deriving DecidableEq, Repr

/-- `call.keywords` of a located call (always an `ast.Call`). -/
def keywords : Expr → List (Option String × Expr)
  | Expr.Call _ kws => kws
  | _ => []

/-- `StaticReader.content` (`_static.py` lines 9-21): `None` when no
`setup` call is located, otherwise the five-field mapping, each field
produced by its own resolver.  The `dict(...)` display evaluates its
arguments left to right, so `install_requires` is resolved (and may
raise) before `extras_require`. -/
def content (tree : List Stmt) : Except String (Option Metadata) :=
  match _get_call tree with
  | none => Except.ok none
  | some call => do
    let body := _get_body tree
    let kws := keywords call
    let ir ← _find_install_requires body kws
    let er ← _find_extras_require body kws
    Except.ok (some ⟨_find_single_string body kws "name",
      _find_single_string body kws "version",
      _find_single_string body kws "python_requires", ir, er⟩)

/-! ### Specification-side definitions -/

/-- From the spec's words (call locator, §4.2 / C4): a flattened element
is relevant exactly when it is a call expression whose callee is an
unqualified (bare) name equal to `setup`; the locator returns the first
such element. -/
def setup_call_of : Node → Option Expr
  | Node.expr (Expr.Call (Expr.Name "setup") kws) => some (Expr.Call (Expr.Name "setup") kws)
  | _ => none

/-- From the claim's words (flattener, C6): depth-first traversal in
which a function definition is replaced by its recursively flattened
body, an if-statement's body is inlined in place (the statement itself
contributing nothing further), an expression statement contributes its
inner expression, and every other statement is yielded unchanged. -/
def flatten_claim : List Stmt → List Node
  | [] => []
  | Stmt.FunctionDef body :: rest => flatten_claim body ++ flatten_claim rest
  | Stmt.If body :: rest => flatten_claim body ++ flatten_claim rest
  | Stmt.ExprStmt e :: rest => Node.expr e :: flatten_claim rest
  | Stmt.Assign ts v :: rest => Node.stmt (Stmt.Assign ts v) :: flatten_claim rest
  | Stmt.OtherS :: rest => Node.stmt Stmt.OtherS :: flatten_claim rest

/-- The amended flattener description: as `flatten_claim`, except that
an if-statement contributes its recursively flattened body followed by
the if-statement node itself (the false branch still ignored
entirely). -/
def flatten_amended : List Stmt → List Node
  | [] => []
  | Stmt.FunctionDef body :: rest => flatten_amended body ++ flatten_amended rest
  | Stmt.If body :: rest =>
    flatten_amended body ++ Node.stmt (Stmt.If body) :: flatten_amended rest
  | Stmt.ExprStmt e :: rest => Node.expr e :: flatten_amended rest
  | Stmt.Assign ts v :: rest => Node.stmt (Stmt.Assign ts v) :: flatten_amended rest
  | Stmt.OtherS :: rest => Node.stmt Stmt.OtherS :: flatten_amended rest

/-- From the claim's words (C10): a dict entry whose key is a string
literal. -/
def is_str_key (p : Option Expr × Expr) : Bool :=
  match p.1 with
  | some (Expr.Str _) => true
  | _ => false

/-- From the claim's words (C10): a dict entry whose key is a string
literal equal to the field name. -/
def str_key_eq (name : String) (p : Option Expr × Expr) : Bool :=
  match p.1 with
  | some (Expr.Str s) => s = name
  | _ => false

/-- From the claim's words (C3): a binding shape accepted by the
double-star hop — a mapping literal, or a call to a function named
`dict`. -/
def dictish : Expr → Bool
  | Expr.DictE _ => true
  | Expr.Call (Expr.Name "dict") _ => true
  | _ => false

/-- A flattened-body element that `_find_variable_in_body name` would
accept: an assignment one of whose targets is an `ast.Name` equal to
`name`. -/
def assigns_to (name : String) : Node → Bool
  | Node.stmt (Stmt.Assign targets _) => targets.any (_is_name_target name)
  | _ => false

/-- The script `setup(name="x", version="1.0")`. -/
def script_plain : List Stmt :=
  [Stmt.ExprStmt (Expr.Call (Expr.Name "setup")
    [(some "name", Expr.Str "x"), (some "version", Expr.Str "1.0")])]

/-- The script `kwargs = dict(install_requires=["a", "b"])` followed by
`setup(**kwargs)`. -/
def script_dict_kwargs : List Stmt :=
  [Stmt.Assign [Expr.Name "kwargs"]
    (Expr.Call (Expr.Name "dict")
      [(some "install_requires", Expr.ListE [Expr.Str "a", Expr.Str "b"])]),
   Stmt.ExprStmt (Expr.Call (Expr.Name "setup") [(none, Expr.Name "kwargs")])]

/-- The script `version = "2.0"` followed by `setup(version=version)`. -/
def script_version_alias : List Stmt :=
  [Stmt.Assign [Expr.Name "version"] (Expr.Str "2.0"),
   Stmt.ExprStmt (Expr.Call (Expr.Name "setup") [(some "version", Expr.Name "version")])]

/-- The script `a = dict(version="1.0"); b = dict(version="2.0");
setup(**a, **b)`: two double-star arguments on the entry-point call. -/
def script_two_stars : List Stmt :=
  [Stmt.Assign [Expr.Name "a"]
    (Expr.Call (Expr.Name "dict") [(some "version", Expr.Str "1.0")]),
   Stmt.Assign [Expr.Name "b"]
    (Expr.Call (Expr.Name "dict") [(some "version", Expr.Str "2.0")]),
   Stmt.ExprStmt (Expr.Call (Expr.Name "setup")
    [(none, Expr.Name "a"), (none, Expr.Name "b")])]

/-- The whitespace characters removed by Python's `str.strip()`
(restricted to the ASCII range). -/
def py_space (c : Char) : Bool :=
  c = ' ' || c = '\t' || c = '\n' || c = '\x0d' || c = '\x0b' || c = '\x0c'

/-- Python `str.strip()`: remove leading and trailing whitespace.  The
stream is modelled as a character list. -/
def py_strip (l : List Char) : List Char :=
  ((l.dropWhile py_space).reverse.dropWhile py_space).reverse

/-- Python `str.split('\n')`: the newline-separated segments of a
string, with empty segments kept (so the result is never empty). -/
def split_nl : List Char → List (List Char)
  | [] => [[]]
  | c :: rest =>
    if c = '\n' then [] :: split_nl rest
    else
      match split_nl rest with
      | [] => [[c]]
      | seg :: segs => (c :: seg) :: segs

/-- The message built by `CommandReader.content` (`_cmd.py` line 49):
`result.stderr.decode().strip().split('\n')[-1]`. -/
def cmd_error_message (stderr : List Char) : List Char :=
  (split_nl (py_strip stderr)).getLastD []

/-- The failure surface of `CommandReader.content` (`_cmd.py` lines
48-49): on a non-zero return code, raise a `RuntimeError` carrying
`cmd_error_message` (modelled as `some message`); otherwise no failure
is raised (`none`). -/
def cmd_outcome (returncode : Int) (stderr : List Char) : Option (List Char) :=
  if returncode ≠ 0 then some (cmd_error_message stderr) else none

/-- From the claim's words (C8): the lines of a text, with the usual
convention that a trailing newline does not open a final empty line
(as Python's `str.splitlines`). -/
def text_lines (s : List Char) : List (List Char) :=
  let parts := split_nl s
  if parts.getLast? = some [] then parts.dropLast else parts

/-- From the claim's words (C8): the last line of a stream (empty for
an empty stream). -/
def last_line (s : List Char) : List Char :=
  (text_lines s).getLastD []

/-! ### Helper lemmas -/

theorem get_call_scan_eq_findSome (nodes : List Node) :
    _get_call_scan nodes = nodes.findSome? setup_call_of := by
  induction nodes with
  | nil => rfl
  | cons n rest ih =>
    cases n with
    | expr e =>
      cases e with
      | Call f kws =>
        cases f with
        | Name id =>
          by_cases h : id = "setup" <;>
            simp [_get_call_scan, setup_call_of, List.findSome?, h, ih]
        | Str s => simp [_get_call_scan, setup_call_of, List.findSome?, ih]
        | ListE l => simp [_get_call_scan, setup_call_of, List.findSome?, ih]
        | DictE l => simp [_get_call_scan, setup_call_of, List.findSome?, ih]
        | Call g k => simp [_get_call_scan, setup_call_of, List.findSome?, ih]
        | OtherE => simp [_get_call_scan, setup_call_of, List.findSome?, ih]
      | Str s => simp [_get_call_scan, setup_call_of, List.findSome?, ih]
      | Name id => simp [_get_call_scan, setup_call_of, List.findSome?, ih]
      | ListE l => simp [_get_call_scan, setup_call_of, List.findSome?, ih]
      | DictE l => simp [_get_call_scan, setup_call_of, List.findSome?, ih]
      | OtherE => simp [_get_call_scan, setup_call_of, List.findSome?, ih]
    | stmt s => simp [_get_call_scan, setup_call_of, List.findSome?, ih]

theorem get_body_eq_flatten_amended (l : List Stmt) :
    _get_body l = flatten_amended l := by
  have key : ∀ n (l : List Stmt), sizeOf l ≤ n → _get_body l = flatten_amended l := by
    intro n
    induction n with
    | zero =>
      intro l h
      cases l with
      | nil => simp [_get_body, flatten_amended]
      | cons s rest => simp [List.cons.sizeOf_spec] at h
    | succ n ih =>
      intro l h
      cases l with
      | nil => simp [_get_body, flatten_amended]
      | cons s rest =>
        cases s with
        | FunctionDef body =>
          have hb : sizeOf body ≤ n := by
            simp [List.cons.sizeOf_spec, Stmt.FunctionDef.sizeOf_spec] at h; omega
          have hr : sizeOf rest ≤ n := by
            simp [List.cons.sizeOf_spec, Stmt.FunctionDef.sizeOf_spec] at h; omega
          simp [_get_body, flatten_amended, ih body hb, ih rest hr]
        | If body =>
          have hb : sizeOf body ≤ n := by
            simp [List.cons.sizeOf_spec, Stmt.If.sizeOf_spec] at h; omega
          have hr : sizeOf rest ≤ n := by
            simp [List.cons.sizeOf_spec, Stmt.If.sizeOf_spec] at h; omega
          simp [_get_body, flatten_amended, ih body hb, ih rest hr]
        | ExprStmt e =>
          have hr : sizeOf rest ≤ n := by
            simp [List.cons.sizeOf_spec, Stmt.ExprStmt.sizeOf_spec] at h; omega
          simp [_get_body, flatten_amended, ih rest hr]
        | Assign ts v =>
          have hr : sizeOf rest ≤ n := by
            simp [List.cons.sizeOf_spec, Stmt.Assign.sizeOf_spec] at h; omega
          simp [_get_body, flatten_amended, ih rest hr]
        | OtherS =>
          have hr : sizeOf rest ≤ n := by
            simp [List.cons.sizeOf_spec, Stmt.OtherS.sizeOf_spec] at h; omega
          simp [_get_body, flatten_amended, ih rest hr]
  exact key (sizeOf l) l (Nat.le_refl _)

/-! ### Claim C4: the call locator -/

/-- C4: the call locator scans the flattened statement sequence in
document order and returns the first element that is a call expression
whose callee is a bare name equal to `setup`; if no such element
exists it returns `none`, and any later calls to the same name are
ignored. -/
theorem claim_C4 (elements : List Stmt) :
    _get_call elements = (_get_body elements).findSome? setup_call_of := by
  unfold _get_call
  exact get_call_scan_eq_findSome (_get_body elements)

/-! ### Claim C6: the flattener -/

/-- C6 counterexample: for the script `if c: pass`, the flattener
yields the (flattened) body of the if-statement **and then the
if-statement node itself**, so its output has two elements where the
claimed description produces one; the two disagree. -/
theorem claim_C6_counterexample :
    _get_body [Stmt.If [Stmt.OtherS]] ≠ flatten_claim [Stmt.If [Stmt.OtherS]] ∧
    (_get_body [Stmt.If [Stmt.OtherS]]).length = 2 ∧
    (flatten_claim [Stmt.If [Stmt.OtherS]]).length = 1 := by
  refine ⟨?_, ?_, ?_⟩ <;> simp [_get_body, flatten_claim]

/-- C6 (amended): the flattener produces the depth-first flattening in
which a function definition is replaced by its recursively flattened
body, an if-statement contributes its recursively flattened body
followed by the if-statement node itself (false branch ignored
entirely), an expression statement contributes its inner expression,
and every other statement is yielded unchanged. -/
theorem claim_C6 (l : List Stmt) : _get_body l = flatten_amended l :=
  get_body_eq_flatten_amended l

theorem kwargs_scan_skip (l1 rest : List (Option String × Expr))
    (h : l1.all (fun k => k.1.isSome) = true) :
    _find_kwargs_scan (l1 ++ rest) = _find_kwargs_scan rest := by
  induction l1 with
  | nil => rfl
  | cons k l ih =>
    obtain ⟨arg, v⟩ := k
    simp only [List.all_cons, Bool.and_eq_true] at h
    cases arg with
    | none => simp at h
    | some a => simpa [_find_kwargs_scan] using ih h.2

theorem fvb_skip (l rest : List Node) (name : String)
    (h : l.all (fun n => !assigns_to name n) = true) :
    _find_variable_in_body (l ++ rest) name = _find_variable_in_body rest name := by
  induction l with
  | nil => rfl
  | cons n l ih =>
    simp only [List.all_cons, Bool.and_eq_true] at h
    cases n with
    | expr e => simpa [_find_variable_in_body] using ih h.2
    | stmt s =>
      cases s with
      | Assign targets v =>
        have ht : targets.any (_is_name_target name) = false := by
          have := h.1
          simp only [assigns_to, Bool.not_eq_true'] at this
          exact this
        simpa [_find_variable_in_body, ht] using ih h.2
      | FunctionDef b => simpa [_find_variable_in_body] using ih h.2
      | If b => simpa [_find_variable_in_body] using ih h.2
      | ExprStmt e => simpa [_find_variable_in_body] using ih h.2
      | OtherS => simpa [_find_variable_in_body] using ih h.2

/-- C10: during mapping-literal lookup of a field, an entry whose key
is not a string literal can never match: the lookup equals
first-match (`find?`) over entries whose key is a string literal equal
to the field name, and dropping every entry whose key is not a string
literal does not change the result. -/
theorem claim_C10 (pairs : List (Option Expr × Expr)) (name : String) :
    _find_in_dict pairs name = ((pairs.find? (str_key_eq name)).map Prod.snd) ∧
    _find_in_dict pairs name = _find_in_dict (pairs.filter is_str_key) name := by
  constructor
  · induction pairs with
    | nil => rfl
    | cons p rest ih =>
      obtain ⟨key, val⟩ := p
      have hk : str_key_eq name (key, val) = _key_matches name key := by
        cases key with
        | none => rfl
        | some e => cases e <;> rfl
      by_cases h : _key_matches name key = true
      · rw [_find_in_dict, if_pos h, List.find?_cons_of_pos _ (by rw [hk]; exact h)]
        rfl
      · rw [_find_in_dict, if_neg h, List.find?_cons_of_neg _ (by rw [hk]; exact h), ih]
  · induction pairs with
    | nil => rfl
    | cons p rest ih =>
      obtain ⟨key, val⟩ := p
      by_cases hs : is_str_key (key, val) = true
      · by_cases h : _key_matches name key = true
        · simp [_find_in_dict, h, List.filter_cons, hs]
        · simp [_find_in_dict, h, List.filter_cons, hs, ih]
      · have h : _key_matches name key = false := by
          cases key with
          | none => rfl
          | some e => cases e <;> simp_all [is_str_key, _key_matches]
        simp [_find_in_dict, h, List.filter_cons, hs, ih]

/-- C9: when the entry-point call contains more than one double-star
keyword argument, `_find_call_kwargs` returns the last one in source
order (any earlier ones are ignored); concretely, with
`setup(**a, **b)` the fields are resolved from `b`'s binding. -/
theorem claim_C9 :
    (∀ (pre post : List (Option String × Expr)) (v : Expr),
      post.all (fun k => k.1.isSome) = true →
      _find_call_kwargs (pre ++ (none, v) :: post) = some v) ∧
    content script_two_stars = Except.ok (some ⟨none, some "2.0", none, [], []⟩) := by
  constructor
  · intro pre post v h
    unfold _find_call_kwargs
    rw [show pre ++ (none, v) :: post = (pre ++ [((none : Option String), v)]) ++ post by simp]
    rw [List.reverse_append]
    rw [kwargs_scan_skip post.reverse _ (by rwa [List.all_reverse])]
    simp [_find_kwargs_scan]
  · have hcall : _get_call script_two_stars =
        some (Expr.Call (Expr.Name "setup") [(none, Expr.Name "a"), (none, Expr.Name "b")]) := by
      simp [script_two_stars, _get_call, _get_body, _get_call_scan]
    have hbody : _get_body script_two_stars =
        [Node.stmt (Stmt.Assign [Expr.Name "a"]
           (Expr.Call (Expr.Name "dict") [(some "version", Expr.Str "1.0")])),
         Node.stmt (Stmt.Assign [Expr.Name "b"]
           (Expr.Call (Expr.Name "dict") [(some "version", Expr.Str "2.0")])),
         Node.expr (Expr.Call (Expr.Name "setup") [(none, Expr.Name "a"), (none, Expr.Name "b")])] := by
      simp [script_two_stars, _get_body]
    rw [content.eq_def, hcall]
    simp only [hbody, keywords]
    rfl

/-- C5: variable lookup matches by exact name and returns the value of
the first assignment to that name from the start of the flattened
body, even when a later assignment is closer to the entry-point call;
and the script `version = "2.0"; setup(version=version)` resolves
`version` to `"2.0"`. -/
theorem claim_C5 :
    (∀ (pre mid post : List Node) (name : String) (v1 v2 : Expr),
      pre.all (fun n => !assigns_to name n) = true →
      _find_variable_in_body
        (pre ++ Node.stmt (Stmt.Assign [Expr.Name name] v1) ::
          (mid ++ Node.stmt (Stmt.Assign [Expr.Name name] v2) :: post)) name = some v1) ∧
    content script_version_alias = Except.ok (some ⟨none, some "2.0", none, [], []⟩) := by
  constructor
  · intro pre mid post name v1 v2 h
    rw [fvb_skip pre _ name h]
    simp [_find_variable_in_body, _is_name_target]
  · have hcall : _get_call script_version_alias =
        some (Expr.Call (Expr.Name "setup") [(some "version", Expr.Name "version")]) := by
      simp [script_version_alias, _get_call, _get_body, _get_call_scan]
    have hbody : _get_body script_version_alias =
        [Node.stmt (Stmt.Assign [Expr.Name "version"] (Expr.Str "2.0")),
         Node.expr (Expr.Call (Expr.Name "setup") [(some "version", Expr.Name "version")])] := by
      simp [script_version_alias, _get_body]
    rw [content.eq_def, hcall]
    simp only [hbody, keywords]
    rfl

theorem sss_of_none (body : List Node) (kws : List (Option String × Expr)) (fname : String)
    (h : _find_value body kws fname = none) :
    _find_single_string body kws fname = none := by
  unfold _find_single_string
  rw [h]

theorem install_of_none (body : List Node) (kws : List (Option String × Expr))
    (h : _find_value body kws "install_requires" = none) :
    _find_install_requires body kws = Except.ok [] := by
  unfold _find_install_requires extract_string_list
  rw [h]

theorem extras_of_none (body : List Node) (kws : List (Option String × Expr))
    (h : _find_value body kws "extras_require" = none) :
    _find_extras_require body kws = Except.ok [] := by
  unfold _find_extras_require
  rw [h]

theorem find_value_not_dictish (body : List Node) (kws : List (Option String × Expr))
    (id : String) (v : Expr) (fname : String)
    (h1 : _find_in_call kws fname = none)
    (h2 : _find_call_kwargs kws = some (Expr.Name id))
    (h3 : _find_variable_in_body body id = some v)
    (hd : dictish v = false) :
    _find_value body kws fname = none := by
  simp only [_find_value, h1, h2, h3]
  cases v with
  | DictE pairs => simp [dictish] at hd
  | Call f kws2 =>
    cases f with
    | Name fid =>
      by_cases hf : fid = "dict"
      · subst hf; simp [dictish] at hd
      · simp [hf]
    | Str s => rfl
    | ListE l => rfl
    | DictE l => rfl
    | Call g k => rfl
    | OtherE => rfl
  | Str s => rfl
  | Name i => rfl
  | ListE l => rfl
  | OtherE => rfl

/-- C1: the static extraction result is the `None` sentinel exactly
when no entry-point call is located; otherwise it is the mapping with
exactly the five fields, each holding precisely what its own per-field
resolver produced, with no fallback between fields. -/
theorem claim_C1 (tree : List Stmt) :
    (content tree = Except.ok none ↔ _get_call tree = none) ∧
    (∀ call, _get_call tree = some call →
      content tree = do
        let ir ← _find_install_requires (_get_body tree) (keywords call)
        let er ← _find_extras_require (_get_body tree) (keywords call)
        Except.ok (some ⟨_find_single_string (_get_body tree) (keywords call) "name",
          _find_single_string (_get_body tree) (keywords call) "version",
          _find_single_string (_get_body tree) (keywords call) "python_requires", ir, er⟩)) := by
  cases hg : _get_call tree with
  | none =>
    refine ⟨⟨fun _ => rfl, fun _ => by rw [content.eq_def, hg]⟩, fun call hc => nomatch hc⟩
  | some c =>
    have hne : content tree ≠ Except.ok none := by
      rw [content.eq_def, hg]
      cases hir : _find_install_requires (_get_body tree) (keywords c) with
      | error e => simp [Bind.bind, Except.bind, hir]
      | ok ir =>
        cases her : _find_extras_require (_get_body tree) (keywords c) with
        | error e => simp [Bind.bind, Except.bind, hir, her]
        | ok er => simp [Bind.bind, Except.bind, hir, her]
    refine ⟨⟨fun h => absurd h hne, fun h => nomatch h⟩, fun call hc => ?_⟩
    injection hc with hc
    subst hc
    rw [content.eq_def, hg]

/-- C3: with no direct keyword and a bare-name double-star argument,
resolution succeeds only if the name's binding is a mapping literal or
a call to a function named `dict` (any other bound shape yields
absent/empty for every field); for a `dict(...)` call the field is
looked up among that call's keyword arguments, and the script
`kwargs = dict(install_requires=["a","b"]); setup(**kwargs)` resolves
`install_requires` to `["a", "b"]`. -/
theorem claim_C3 :
    (∀ (body : List Node) (kws : List (Option String × Expr)) (id : String) (v : Expr),
      _find_call_kwargs kws = some (Expr.Name id) →
      _find_variable_in_body body id = some v →
      dictish v = false →
      (∀ fname, _find_in_call kws fname = none → _find_single_string body kws fname = none) ∧
      (_find_in_call kws "install_requires" = none →
        _find_install_requires body kws = Except.ok []) ∧
      (_find_in_call kws "extras_require" = none →
        _find_extras_require body kws = Except.ok [])) ∧
    (∀ (body : List Node) (kws kws2 : List (Option String × Expr)) (id fname : String),
      _find_in_call kws fname = none →
      _find_call_kwargs kws = some (Expr.Name id) →
      _find_variable_in_body body id = some (Expr.Call (Expr.Name "dict") kws2) →
      _find_value body kws fname = _find_in_call kws2 fname) ∧
    content script_dict_kwargs = Except.ok (some ⟨none, none, none, ["a", "b"], []⟩) := by
  refine ⟨?_, ?_, ?_⟩
  · intro body kws id v h2 h3 hd
    exact ⟨fun fname h1 => sss_of_none body kws fname
        (find_value_not_dictish body kws id v fname h1 h2 h3 hd),
      fun h1 => install_of_none body kws
        (find_value_not_dictish body kws id v "install_requires" h1 h2 h3 hd),
      fun h1 => extras_of_none body kws
        (find_value_not_dictish body kws id v "extras_require" h1 h2 h3 hd)⟩
  · intro body kws kws2 id fname h1 h2 h3
    simp only [_find_value, h1, h2, h3]
    simp
  · have hcall : _get_call script_dict_kwargs =
        some (Expr.Call (Expr.Name "setup") [(none, Expr.Name "kwargs")]) := by
      simp [script_dict_kwargs, _get_call, _get_body, _get_call_scan]
    have hbody : _get_body script_dict_kwargs =
        [Node.stmt (Stmt.Assign [Expr.Name "kwargs"]
           (Expr.Call (Expr.Name "dict")
             [(some "install_requires", Expr.ListE [Expr.Str "a", Expr.Str "b"])])),
         Node.expr (Expr.Call (Expr.Name "setup") [(none, Expr.Name "kwargs")])] := by
      simp [script_dict_kwargs, _get_body]
    rw [content.eq_def, hcall]
    simp only [hbody, keywords]
    rfl

theorem find_value_congr {b1 b2 : List Node}
    (hb : _find_variable_in_body b1 = _find_variable_in_body b2)
    (kws : List (Option String × Expr)) (name : String) :
    _find_value b1 kws name = _find_value b2 kws name := by
  simp only [_find_value, hb]

theorem split_nl_ne_nil (l : List Char) : split_nl l ≠ [] := by
  cases l with
  | nil => simp [split_nl]
  | cons c rest =>
    by_cases hc : c = '\n'
    · simp [split_nl, hc]
    · cases h : split_nl rest with
      | nil => simp [split_nl, hc, h]
      | cons seg segs => simp [split_nl, hc, h]

theorem head_dropWhile_not (p : Char → Bool) (l : List Char) (c : Char)
    (h : (l.dropWhile p).head? = some c) : p c = false := by
  induction l with
  | nil => simp [List.dropWhile] at h
  | cons a rest ih =>
    by_cases hp : p a = true
    · rw [List.dropWhile_cons] at h
      simp only [hp, if_pos] at h
      exact ih h
    · rw [List.dropWhile_cons] at h
      simp only [hp] at h
      simp at h
      rw [← h]
      exact eq_false_of_ne_true hp

theorem split_nl_cons (c : Char) (rest : List Char) :
    split_nl (c :: rest) = if c = '\n' then [] :: split_nl rest
      else match split_nl rest with
        | [] => [[c]]
        | seg :: segs => (c :: seg) :: segs := rfl

theorem py_strip_getLast_not_space (l : List Char) (c : Char)
    (h : (py_strip l).getLast? = some c) : py_space c = false := by
  unfold py_strip at h
  rw [List.getLast?_reverse] at h
  exact head_dropWhile_not _ _ _ h

theorem py_strip_getLast_ne_nl (l : List Char) :
    (py_strip l).getLast? ≠ some '\n' := by
  intro h
  have := py_strip_getLast_not_space l '\n' h
  simp [py_space] at this

theorem split_last_ne_empty : ∀ l : List Char, l ≠ [] → l.getLast? ≠ some '\n' →
    (split_nl l).getLast? ≠ some [] := by
  intro l
  induction l with
  | nil => intro hne _; exact absurd rfl hne
  | cons c rest ih =>
    intro _ h
    cases rest with
    | nil =>
      have hc : c ≠ '\n' := by
        intro e
        exact h (by simp [e])
      simp [split_nl, hc]
    | cons d rest2 =>
      have h2 : (d :: rest2).getLast? ≠ some '\n' := by
        rwa [List.getLast?_cons_cons] at h
      have ihh := ih (by simp) h2
      obtain ⟨y, ys, hys⟩ := List.exists_cons_of_ne_nil (split_nl_ne_nil (d :: rest2))
      rw [hys] at ihh
      by_cases hc : c = '\n'
      · subst hc
        rw [split_nl_cons, if_pos rfl, hys]
        show (([] : List Char) :: y :: ys).getLast? ≠ some []
        rw [List.getLast?_cons_cons]
        exact ihh
      · rw [split_nl_cons, if_neg hc, hys]
        cases ys with
        | nil =>
          show [c :: y].getLast? ≠ some []
          simp
        | cons z zs =>
          show ((c :: y) :: z :: zs).getLast? ≠ some []
          rw [List.getLast?_cons_cons]
          rwa [List.getLast?_cons_cons] at ihh

theorem last_line_of_stripped (s : List Char) :
    (split_nl (py_strip s)).getLastD [] = last_line (py_strip s) := by
  by_cases hn : py_strip s = []
  · rw [hn]; rfl
  · have hne := split_last_ne_empty (py_strip s) hn (py_strip_getLast_ne_nl s)
    unfold last_line text_lines
    rw [if_neg hne]

/-- C8 (amended): on a non-zero return code the subprocess collaborator
raises a failure whose message is the last line of the child's
standard-error stream after stripping leading and trailing whitespace
from the stream; on a zero return code nothing is raised. -/
theorem claim_C8 (returncode : Int) (stderr : List Char) :
    (returncode ≠ 0 → cmd_outcome returncode stderr = some (last_line (py_strip stderr))) ∧
    (returncode = 0 → cmd_outcome returncode stderr = none) := by
  constructor
  · intro h
    unfold cmd_outcome cmd_error_message
    rw [if_pos h, last_line_of_stripped]
  · intro h
    unfold cmd_outcome
    simp [h]

/-- C8 counterexample: for stderr `"boom\n\n"` the raised message is
`"boom"`, while the last line of that stream is the empty line, so the
message is not exactly the last line of the stream. -/
theorem claim_C8_counterexample :
    cmd_outcome 1 ['b', 'o', 'o', 'm', '\n', '\n'] ≠
      some (last_line ['b', 'o', 'o', 'm', '\n', '\n']) ∧
    cmd_outcome 1 ['b', 'o', 'o', 'm', '\n', '\n'] = some ['b', 'o', 'o', 'm'] ∧
    last_line ['b', 'o', 'o', 'm', '\n', '\n'] = [] := by
  refine ⟨?_, ?_, ?_⟩ <;> decide

/-- C8 witness: the amended theorem applied at concrete runs. -/
theorem claim_C8_witness :
    cmd_outcome 1 ['e', 'r', 'r', '\n'] = some (last_line (py_strip ['e', 'r', 'r', '\n'])) ∧
    cmd_outcome 0 ['e', 'r', 'r'] = none :=
  ⟨(claim_C8 1 ['e', 'r', 'r', '\n']).1 (by decide), (claim_C8 0 ['e', 'r', 'r']).2 rfl⟩


/-- C1 witness: the theorem applied at the empty script and at
`setup(name="x", version="1.0")`. -/
theorem claim_C1_witness :
    content ([] : List Stmt) = Except.ok none ∧
    content script_plain = (do
      let ir ← _find_install_requires (_get_body script_plain)
        (keywords (Expr.Call (Expr.Name "setup")
          [(some "name", Expr.Str "x"), (some "version", Expr.Str "1.0")]))
      let er ← _find_extras_require (_get_body script_plain)
        (keywords (Expr.Call (Expr.Name "setup")
          [(some "name", Expr.Str "x"), (some "version", Expr.Str "1.0")]))
      Except.ok (some ⟨_find_single_string (_get_body script_plain)
          (keywords (Expr.Call (Expr.Name "setup")
            [(some "name", Expr.Str "x"), (some "version", Expr.Str "1.0")])) "name",
        _find_single_string (_get_body script_plain)
          (keywords (Expr.Call (Expr.Name "setup")
            [(some "name", Expr.Str "x"), (some "version", Expr.Str "1.0")])) "version",
        _find_single_string (_get_body script_plain)
          (keywords (Expr.Call (Expr.Name "setup")
            [(some "name", Expr.Str "x"), (some "version", Expr.Str "1.0")])) "python_requires",
        ir, er⟩)) :=
  ⟨(claim_C1 []).1.mpr (by simp [_get_call, _get_body, _get_call_scan]),
   (claim_C1 script_plain).2 _ (by simp [script_plain, _get_call, _get_body, _get_call_scan])⟩

/-- C3 witness: the theorem applied at concrete scripts — a double-star
argument bound to a non-mapping shape, and one bound to a `dict(...)`
call. -/
theorem claim_C3_witness :
    _find_single_string [Node.stmt (Stmt.Assign [Expr.Name "opts"] Expr.OtherE)]
      [(none, Expr.Name "opts")] "name" = none ∧
    _find_value [Node.stmt (Stmt.Assign [Expr.Name "opts"]
        (Expr.Call (Expr.Name "dict") [(some "name", Expr.Str "z")]))]
      [(none, Expr.Name "opts")] "name" =
      _find_in_call [(some "name", Expr.Str "z")] "name" :=
  ⟨(claim_C3.1 [Node.stmt (Stmt.Assign [Expr.Name "opts"] Expr.OtherE)]
      [(none, Expr.Name "opts")] "opts" Expr.OtherE rfl rfl rfl).1 "name" rfl,
   claim_C3.2.1 [Node.stmt (Stmt.Assign [Expr.Name "opts"]
       (Expr.Call (Expr.Name "dict") [(some "name", Expr.Str "z")]))]
     [(none, Expr.Name "opts")] [(some "name", Expr.Str "z")] "opts" "name" rfl rfl rfl⟩

/-- C5 witness: the theorem applied with two assignments to the same
name, the second closer to the call: the first one wins. -/
theorem claim_C5_witness :
    _find_variable_in_body ([] ++ Node.stmt (Stmt.Assign [Expr.Name "v"] (Expr.Str "1")) ::
      ([] ++ Node.stmt (Stmt.Assign [Expr.Name "v"] (Expr.Str "2")) :: [])) "v" =
      some (Expr.Str "1") :=
  claim_C5.1 [] [] [] "v" (Expr.Str "1") (Expr.Str "2") rfl

/-- C9 witness: the theorem applied at a keyword list with named
keywords on both sides of the double-star argument. -/
theorem claim_C9_witness :
    _find_call_kwargs ([(some "name", Expr.Str "x")] ++ (none, Expr.Name "k") ::
      [(some "version", Expr.Str "1")]) = some (Expr.Name "k") :=
  claim_C9.1 [(some "name", Expr.Str "x")] [(some "version", Expr.Str "1")]
    (Expr.Name "k") rfl

end Setuptools
